import Mathlib

/-!
Verification development for the pem-params key-to-JWK converter
(src/main.rs of the ec-to-jwk repository).

The program reads a PEM key, extracts its numeric parameters through
OpenSSL handles, and assembles a JWK record: big numbers are rendered with
BN_bn2bin (minimal big-endian bytes), byte strings are base64url-encoded
without padding (base64ct), the kid is a SHA digest of key-type-specific
canonical bytes, and the record is serialized by serde_json in field
declaration order with the optional d field skipped when absent.

This file shallowly embeds that pipeline: the external primitives
(BN_bn2bin, base64ct, SHA-1/SHA-256, EC_POINT point2oct) are modelled
faithfully from their documented behaviour, and the conversion functions
are translated from the Rust source.
-/

namespace EcToJwk

/-! ### Canonical big-number bytes: model of BigNum::to_vec (OpenSSL BN_bn2bin) -/

/-- Fuel-driven big-endian expansion of a natural number in base 256; with
enough fuel it yields the minimal digit list (empty for 0). -/
def toVecFuel : Nat → Nat → List Nat
  | 0, _ => []
  | fuel + 1, n => if n = 0 then [] else toVecFuel fuel (n / 256) ++ [n % 256]

/-- Model of BigNum::to_vec (OpenSSL BN_bn2bin): the minimal big-endian byte
representation of a non-negative integer, with no leading zero byte; the
number 0 yields the empty byte sequence (BN_num_bytes(0) = 0). -/
def toVec (n : Nat) : List Nat := toVecFuel n n

/-- The value a byte list denotes when read as a big-endian base-256 numeral. -/
def beVal (l : List Nat) : Nat := l.foldl (fun acc b => acc * 256 + b) 0

/-! ### Base64url without padding: model of base64ct Base64UrlUnpadded -/

/-- The URL-safe base64 alphabet of RFC 4648 section 5. -/
def b64Char (n : Nat) : Char :=
  if n < 26 then Char.ofNat (65 + n)
  else if n < 52 then Char.ofNat (97 + (n - 26))
  else if n < 62 then Char.ofNat (48 + (n - 52))
  else if n = 62 then Char.ofNat 45
  else Char.ofNat 95

/-- Characters of the unpadded base64url encoding of a byte sequence:
full 3-byte groups give 4 characters, a 1- or 2-byte tail gives 2 or 3
characters and no padding. -/
def b64Chars : List Nat → List Char
  | [] => []
  | [b1] => [b64Char (b1 / 4), b64Char (b1 % 4 * 16)]
  | [b1, b2] => [b64Char (b1 / 4), b64Char (b1 % 4 * 16 + b2 / 16), b64Char (b2 % 16 * 4)]
  | b1 :: b2 :: b3 :: rest =>
    b64Char (b1 / 4) :: b64Char (b1 % 4 * 16 + b2 / 16) ::
      b64Char (b2 % 16 * 4 + b3 / 64) :: b64Char (b3 % 64) :: b64Chars rest

/-- Model of Base64UrlUnpadded::encode_string from the base64ct crate. -/
def encodeBase64Url (bs : List Nat) : String := ⟨b64Chars bs⟩

/-- The number of bytes an unpadded base64 string decodes to. -/
def b64DecodedLen (s : String) : Nat :=
  3 * (s.length / 4) +
    (if s.length % 4 = 2 then 1 else if s.length % 4 = 3 then 2 else 0)

/-! ### SHA-256 and SHA-1 over byte sequences (FIPS 180-4) -/

/-- Truncation to a 32-bit word. -/
def w32 (n : Nat) : Nat := n % 4294967296

/-- Right rotation of a 32-bit word. -/
def rotr (k x : Nat) : Nat := w32 ((x >>> k) ||| (x <<< (32 - k)))

/-- Left rotation of a 32-bit word. -/
def rotl (k x : Nat) : Nat := w32 ((x <<< k) ||| (x >>> (32 - k)))

/-- The SHA choice function. -/
def shaCh (x y z : Nat) : Nat := (x &&& y) ^^^ ((x ^^^ 4294967295) &&& z)

/-- The SHA majority function. -/
def shaMaj (x y z : Nat) : Nat := ((x &&& y) ^^^ (x &&& z)) ^^^ (y &&& z)

/-- SHA-256 big sigma 0. -/
def bsig0 (x : Nat) : Nat := (rotr 2 x ^^^ rotr 13 x) ^^^ rotr 22 x

/-- SHA-256 big sigma 1. -/
def bsig1 (x : Nat) : Nat := (rotr 6 x ^^^ rotr 11 x) ^^^ rotr 25 x

/-- SHA-256 small sigma 0. -/
def ssig0 (x : Nat) : Nat := (rotr 7 x ^^^ rotr 18 x) ^^^ (x >>> 3)

/-- SHA-256 small sigma 1. -/
def ssig1 (x : Nat) : Nat := (rotr 17 x ^^^ rotr 19 x) ^^^ (x >>> 10)

/-- The eight bytes of a 64-bit big-endian length field. -/
def be64 (n : Nat) : List Nat :=
  [(n >>> 56) % 256, (n >>> 48) % 256, (n >>> 40) % 256, (n >>> 32) % 256,
   (n >>> 24) % 256, (n >>> 16) % 256, (n >>> 8) % 256, n % 256]

/-- FIPS 180-4 padding: append byte 0x80, zeros to 56 mod 64, then the bit
length as a 64-bit big-endian field. -/
def padMsg (msg : List Nat) : List Nat :=
  msg ++ 128 :: (List.replicate ((64 - (msg.length + 9) % 64) % 64) 0 ++ be64 (8 * msg.length))

/-- Grouping of bytes into big-endian 32-bit words. -/
def toWords : List Nat → List Nat
  | b1 :: b2 :: b3 :: b4 :: rest => (((b1 * 256 + b2) * 256 + b3) * 256 + b4) :: toWords rest
  | _ => []

/-- Grouping of a word list into 16-word blocks. -/
def toBlocks16 : List Nat → List (List Nat)
  | w1 :: w2 :: w3 :: w4 :: w5 :: w6 :: w7 :: w8 ::
      w9 :: w10 :: w11 :: w12 :: w13 :: w14 :: w15 :: w16 :: rest =>
    [w1, w2, w3, w4, w5, w6, w7, w8, w9, w10, w11, w12, w13, w14, w15, w16] :: toBlocks16 rest
  | _ => []

/-- The 64 SHA-256 round constants. -/
def sha256K : List Nat :=
  [1116352408, 1899447441, 3049323471, 3921009573, 961987163, 1508970993, 2453635748, 2870763221,
   3624381080, 310598401, 607225278, 1426881987, 1925078388, 2162078206, 2614888103, 3248222580,
   3835390401, 4022224774, 264347078, 604807628, 770255983, 1249150122, 1555081692, 1996064986,
   2554220882, 2821834349, 2952996808, 3210313671, 3336571891, 3584528711, 113926993, 338241895,
   666307205, 773529912, 1294757372, 1396182291, 1695183700, 1986661051, 2177026350, 2456956037,
   2730485921, 2820302411, 3259730800, 3345764771, 3516065817, 3600352804, 4094571909, 275423344,
   430227734, 506948616, 659060556, 883997877, 958139571, 1322822218, 1537002063, 1747873779,
   1955562222, 2024104815, 2227730452, 2361852424, 2428436474, 2756734187, 3204031479, 3329325298]

/-- The running state of the SHA-256 compression: eight 32-bit words. -/
abbrev Sha256State := Nat × Nat × Nat × Nat × Nat × Nat × Nat × Nat

/-- The SHA-256 initial hash value. -/
def sha256H0 : Sha256State :=
  (1779033703, 3144134277, 1013904242, 2773480762,
   1359893119, 2600822924, 528734635, 1541459225)

/-- Message-schedule extension: appends one word combining the words 2, 7,
15 and 16 positions back; iterated 48 times it grows 16 words to 64. -/
def sha256Extend : Nat → List Nat → List Nat
  | 0, ws => ws
  | k + 1, ws =>
    let m := ws.length
    sha256Extend k (ws ++ [w32 (ssig1 (ws.getD (m - 2) 0) + ws.getD (m - 7) 0 +
      ssig0 (ws.getD (m - 15) 0) + ws.getD (m - 16) 0)])

/-- One SHA-256 round, consuming a round constant paired with a schedule
word. -/
def sha256Round (st : Sha256State) (kw : Nat × Nat) : Sha256State :=
  match st, kw with
  | (a, b, c, d, e, f, g, h), (k, w) =>
    let t1 := w32 (h + bsig1 e + shaCh e f g + k + w)
    let t2 := w32 (bsig0 a + shaMaj a b c)
    (w32 (t1 + t2), a, b, c, w32 (d + t1), e, f, g)

/-- SHA-256 compression of one 16-word block into the chaining state. -/
def sha256Compress (st : Sha256State) (block : List Nat) : Sha256State :=
  let ws := sha256Extend 48 block
  match st, List.foldl sha256Round st (List.zip sha256K ws) with
  | (h0, h1, h2, h3, h4, h5, h6, h7), (a, b, c, d, e, f, g, h) =>
    (w32 (h0 + a), w32 (h1 + b), w32 (h2 + c), w32 (h3 + d),
     w32 (h4 + e), w32 (h5 + f), w32 (h6 + g), w32 (h7 + h))

/-- The four big-endian bytes of a 32-bit word. -/
def wordBytes (w : Nat) : List Nat :=
  [(w >>> 24) % 256, (w >>> 16) % 256, (w >>> 8) % 256, w % 256]

/-- Model of openssl::sha::sha256: the SHA-256 digest (32 bytes) of a byte
sequence. -/
def sha256 (msg : List Nat) : List Nat :=
  match List.foldl sha256Compress sha256H0 (toBlocks16 (toWords (padMsg msg))) with
  | (a, b, c, d, e, f, g, h) =>
    wordBytes a ++ (wordBytes b ++ (wordBytes c ++ (wordBytes d ++
      (wordBytes e ++ (wordBytes f ++ (wordBytes g ++ wordBytes h))))))

/-- The running state of the SHA-1 compression: five 32-bit words. -/
abbrev Sha1State := Nat × Nat × Nat × Nat × Nat

/-- SHA-1 message-schedule extension: appends the 1-bit left rotation of the
xor of the words 3, 8, 14 and 16 positions back; iterated 64 times it grows
16 words to 80. -/
def sha1Extend : Nat → List Nat → List Nat
  | 0, ws => ws
  | k + 1, ws =>
    let m := ws.length
    sha1Extend k (ws ++ [rotl 1 (((ws.getD (m - 3) 0 ^^^ ws.getD (m - 8) 0) ^^^
      ws.getD (m - 14) 0) ^^^ ws.getD (m - 16) 0)])

/-- The SHA-1 round function for round t. -/
def sha1F (t b c d : Nat) : Nat :=
  if t < 20 then (b &&& c) ^^^ ((b ^^^ 4294967295) &&& d)
  else if t < 40 then (b ^^^ c) ^^^ d
  else if t < 60 then ((b &&& c) ^^^ (b &&& d)) ^^^ (c &&& d)
  else (b ^^^ c) ^^^ d

/-- The SHA-1 round constant for round t. -/
def sha1K (t : Nat) : Nat :=
  if t < 20 then 1518500249
  else if t < 40 then 1859775393
  else if t < 60 then 2400959708
  else 3395469782

/-- One SHA-1 round, consuming a round index paired with a schedule word. -/
def sha1Round (st : Sha1State) (tw : Nat × Nat) : Sha1State :=
  match st, tw with
  | (a, b, c, d, e), (t, w) =>
    (w32 (rotl 5 a + sha1F t b c d + e + sha1K t + w), a, rotl 30 b, c, d)

/-- SHA-1 compression of one 16-word block into the chaining state. -/
def sha1Compress (st : Sha1State) (block : List Nat) : Sha1State :=
  let ws := sha1Extend 64 block
  match st, List.foldl sha1Round st (List.zip (List.range 80) ws) with
  | (h0, h1, h2, h3, h4), (a, b, c, d, e) =>
    (w32 (h0 + a), w32 (h1 + b), w32 (h2 + c), w32 (h3 + d), w32 (h4 + e))

/-- The SHA-1 digest (20 bytes) of a byte sequence, per FIPS 180-4; the
primitive behind the legacy EC thumbprint hash domain. -/
def sha1 (msg : List Nat) : List Nat :=
  match List.foldl sha1Compress (1732584193, 4023233417, 2562383102, 271733878, 3285377520)
      (toBlocks16 (toWords (padMsg msg))) with
  | (a, b, c, d, e) =>
    wordBytes a ++ (wordBytes b ++ (wordBytes c ++ (wordBytes d ++ wordBytes e)))

/-! ### Elliptic-curve key handles and point encoding -/

/-- The numeric identifier of the X9_62_PRIME256V1 (NIST P-256) curve in the
openssl Nid table. -/
def nidP256 : Nat := 415

/-- Model of an openssl EcGroup: the optional named-curve identifier (the
curve_name accessor yields none for groups with explicit parameters) and the
byte width of the field elements. -/
structure EcGroup where
  curveName : Option Nat
  fieldWidth : Nat

/-- Model of an EcKeyRef with Public visibility: its group and the affine
coordinates recovered from its point. -/
structure EcKeyPub where
  group : EcGroup
  x : Nat
  y : Nat

/-- Fixed-width big-endian bytes of a field element: EC_POINT point2oct pads
every coordinate to the full field width. -/
def padBE (w n : Nat) : List Nat :=
  (List.range w).map (fun i => (n >>> (8 * (w - 1 - i))) % 256)

/-- Model of EcPoint to_bytes in UNCOMPRESSED form: the marker byte 0x04
followed by the field-width x bytes and the field-width y bytes. -/
def pointUncompressed (w x y : Nat) : List Nat := 4 :: (padBE w x ++ padBE w y)

/-! ### The JWK output records of src/main.rs -/

/-- The EcOutput record, fields in Rust declaration order; d carries
skip_serializing_if, so serde omits it when it is none. -/
structure EcOutput where
  d : Option String
  x : String
  y : String
  kid : String
  crv : String
  kty : String
  alg : String
deriving DecidableEq

/-- The RsaOutput record, fields in Rust declaration order; d carries
skip_serializing_if, so serde omits it when it is none. -/
structure RsaOutput where
  d : Option String
  n : String
  e : String
  kid : String
  kty : String
  alg : String
deriving DecidableEq

/-- The serde_json serialization order of an EcOutput: declaration order,
with the d entry dropped when it is none. -/
def EcOutput.fields (o : EcOutput) : List (String × String) :=
  (match o.d with
    | none => []
    | some v => [("d", v)]) ++
  [("x", o.x), ("y", o.y), ("kid", o.kid), ("crv", o.crv), ("kty", o.kty), ("alg", o.alg)]

/-- The serde_json serialization order of an RsaOutput: declaration order,
with the d entry dropped when it is none. -/
def RsaOutput.fields (o : RsaOutput) : List (String × String) :=
  (match o.d with
    | none => []
    | some v => [("d", v)]) ++
  [("n", o.n), ("e", o.e), ("kid", o.kid), ("kty", o.kty), ("alg", o.alg)]

/-- Model of the TryFrom conversion from an EcKeyRef with Public visibility
to EcOutput in src/main.rs: base64url the minimal coordinate bytes, hash the
uncompressed point encoding with SHA-256 for the kid, resolve the curve name
(error when the group carries none), and map every curve other than P-256 to
the Unknown marker. -/
def EcOutput.tryFrom (key : EcKeyPub) : Except String EcOutput :=
  let base64X := encodeBase64Url (toVec key.x)
  let base64Y := encodeBase64Url (toVec key.y)
  let hashBase64 :=
    encodeBase64Url (sha256 (pointUncompressed key.group.fieldWidth key.x key.y))
  match key.group.curveName with
  | none => Except.error "get curve name"
  | some nid =>
    let crv : Option String := if nid = nidP256 then some "P-256" else none
    Except.ok
      { d := none, x := base64X, y := base64Y, kty := "EC", alg := "ES256",
        crv := crv.getD "Unknown", kid := hashBase64 }

/-- Model of an RsaRef with Public visibility: modulus and public exponent. -/
structure RsaPub where
  n : Nat
  e : Nat

/-- Model of an RsaRef with Private visibility: modulus, public exponent and
private exponent. -/
structure RsaPriv where
  n : Nat
  e : Nat
  d : Nat

/-- Model of the TryFrom conversion from an RsaRef with Public visibility to
RsaOutput in src/main.rs: base64url the minimal bytes of n and e, and hash
their plain concatenation with SHA-256 for the kid; no code path produces an
error. -/
def RsaOutput.tryFromPub (key : RsaPub) : Except String RsaOutput :=
  let base64N := encodeBase64Url (toVec key.n)
  let base64E := encodeBase64Url (toVec key.e)
  let bytes := toVec key.n ++ toVec key.e
  Except.ok
    { d := none, n := base64N, e := base64E, kty := "RSA", alg := "RS256",
      kid := encodeBase64Url (sha256 bytes) }

/-- Model of the TryFrom conversion from an RsaRef with Private visibility to
RsaOutput in src/main.rs: as the public conversion, with d base64url-encoded
into the output and appended to the hashed concatenation; no code path
produces an error. -/
def RsaOutput.tryFromPriv (key : RsaPriv) : Except String RsaOutput :=
  let base64N := encodeBase64Url (toVec key.n)
  let base64E := encodeBase64Url (toVec key.e)
  let base64D := encodeBase64Url (toVec key.d)
  let bytes := (toVec key.n ++ toVec key.e) ++ toVec key.d
  Except.ok
    { d := some base64D, n := base64N, e := base64E, kty := "RSA", alg := "RS256",
      kid := encodeBase64Url (sha256 bytes) }

/-! ### The private-key arm of main -/

/-- A parsed private PKey handle: which algorithm family it holds. The ec
and other constructors carry the numeric algorithm id that the panic message
formats. -/
inductive PKeyPriv where
  | ec (idNum : Nat)
  | rsa (key : RsaPriv)
  | other (idNum : Nat)

/-- The observable outcome of one run of the program: a printed JSON record
(field list in order), a returned error report, or a panic. -/
inductive RunOutcome where
  | printed (fields : List (String × String))
  | reported (context : String)
  | panicked (message : String)
deriving DecidableEq

/-- Whether the outcome printed a JSON document to standard output. -/
def RunOutcome.printsJson : RunOutcome → Bool
  | printed _ => true
  | _ => false

/-- The process exit status: 0 on success, 1 when main returns an error
report, 101 on a Rust panic. -/
def RunOutcome.exitCode : RunOutcome → Nat
  | printed _ => 0
  | reported _ => 1
  | panicked _ => 101

/-- Model of the private-key arm of main in src/main.rs: an EC private key
reaches the unimplemented macro and panics, an RSA private key is converted
and printed, and any other algorithm also panics. -/
def runPrivate (key : PKeyPriv) : RunOutcome :=
  match key with
  | PKeyPriv.ec idNum =>
    RunOutcome.panicked
      ("not implemented: The key id Id(" ++ toString idNum ++ ") is not implemented")
  | PKeyPriv.rsa k =>
    match RsaOutput.tryFromPriv k with
    | Except.ok output => RunOutcome.printed output.fields
    | Except.error e => RunOutcome.reported e
  | PKeyPriv.other idNum =>
    RunOutcome.panicked
      ("not implemented: The key id Id(" ++ toString idNum ++ ") is not implemented")

/-! ### The two EC thumbprint hash domains -/

/-- Modelled from the spec: the configuration selecting one of the two EC
thumbprint hash domains of section 4.4. Domain B is the sha256 call of the
EC conversion in src/main.rs; the front end realizing domain A (SHA-1 over
the same uncompressed point encoding) is not under src, so it is modelled
from the words of the spec. -/
inductive HashDomain where
  | sha1Domain
  | sha256Domain
deriving DecidableEq

/-- The EC thumbprint digest under a selected hash domain: both domains hash
the uncompressed point encoding of the key. -/
def ecThumbprintDigest (domain : HashDomain) (key : EcKeyPub) : List Nat :=
  match domain with
  | HashDomain.sha1Domain => sha1 (pointUncompressed key.group.fieldWidth key.x key.y)
  | HashDomain.sha256Domain => sha256 (pointUncompressed key.group.fieldWidth key.x key.y)

/-- The EC kid under a selected hash domain: the base64url encoding of the
domain digest. -/
def ecKid (domain : HashDomain) (key : EcKeyPub) : String :=
  encodeBase64Url (ecThumbprintDigest domain key)

/-- The P-256 field prime, bounding the affine coordinates of a P-256 key. -/
def p256 : Nat :=
  115792089210356248762697446949407573530086143415290314195533631308867097853951

/-! ### Properties of the canonical byte encoder -/

theorem toVecFuel_zero (f : Nat) : toVecFuel f 0 = [] := by
  cases f <;> simp [toVecFuel]

theorem toVecFuel_congr :
    ∀ f g n, n < 256 ^ f → n < 256 ^ g → toVecFuel f n = toVecFuel g n := by
  intro f
  induction f with
  | zero =>
    intro g n hf _
    interval_cases n
    simp [toVecFuel_zero]
  | succ f ih =>
    intro g n hf hg
    by_cases hn : n = 0
    · subst hn; simp [toVecFuel_zero]
    · cases g with
      | zero => simp at hg; omega
      | succ g =>
        have hf2 : n / 256 < 256 ^ f := by
          rw [Nat.div_lt_iff_lt_mul (by norm_num)]
          calc n < 256 ^ (f + 1) := hf
            _ = 256 ^ f * 256 := by ring
        have hg2 : n / 256 < 256 ^ g := by
          rw [Nat.div_lt_iff_lt_mul (by norm_num)]
          calc n < 256 ^ (g + 1) := hg
            _ = 256 ^ g * 256 := by ring
        simp only [toVecFuel, if_neg hn]
        rw [ih g (n / 256) hf2 hg2]

theorem lt_pow_256 (n : Nat) : n < 256 ^ n :=
  Nat.lt_of_lt_of_le (Nat.lt_two_pow n) (Nat.pow_le_pow_left (by norm_num) n)

theorem toVec_eq_fuel (k n : Nat) (h : n < 256 ^ k) : toVec n = toVecFuel k n :=
  toVecFuel_congr n k n (lt_pow_256 n) h

theorem beVal_append_singleton (l : List Nat) (b : Nat) :
    beVal (l ++ [b]) = beVal l * 256 + b := by
  simp [beVal, List.foldl_append]

theorem beVal_toVecFuel : ∀ f n, n < 256 ^ f → beVal (toVecFuel f n) = n := by
  intro f
  induction f with
  | zero =>
    intro n hf
    interval_cases n
    simp [toVecFuel, beVal]
  | succ f ih =>
    intro n hf
    by_cases hn : n = 0
    · subst hn; simp [toVecFuel_zero, beVal]
    · have hf2 : n / 256 < 256 ^ f := by
        rw [Nat.div_lt_iff_lt_mul (by norm_num)]
        calc n < 256 ^ (f + 1) := hf
          _ = 256 ^ f * 256 := by ring
      simp only [toVecFuel, if_neg hn, beVal_append_singleton, ih (n / 256) hf2]
      omega

theorem beVal_toVec (n : Nat) : beVal (toVec n) = n :=
  beVal_toVecFuel n n (lt_pow_256 n)

theorem toVecFuel_ne_nil : ∀ f n, 0 < n → n < 256 ^ f → toVecFuel f n ≠ [] := by
  intro f n hn hf
  cases f with
  | zero => simp at hf; omega
  | succ f => simp [toVecFuel, Nat.pos_iff_ne_zero.mp hn]

theorem toVec_ne_nil (n : Nat) (hn : 0 < n) : toVec n ≠ [] :=
  toVecFuel_ne_nil n n hn (lt_pow_256 n)

theorem toVecFuel_head :
    ∀ f n, n < 256 ^ f → (toVecFuel f n).head? ≠ some 0 := by
  intro f
  induction f with
  | zero =>
    intro n hf
    interval_cases n
    simp [toVecFuel]
  | succ f ih =>
    intro n hf
    by_cases hn : n = 0
    · subst hn; simp [toVecFuel_zero]
    · simp only [toVecFuel, if_neg hn]
      by_cases hsmall : n < 256
      · have : n / 256 = 0 := Nat.div_eq_of_lt hsmall
        rw [this, toVecFuel_zero]
        have : n % 256 = n := Nat.mod_eq_of_lt hsmall
        simp [this, hn]
      · have hf2 : n / 256 < 256 ^ f := by
          rw [Nat.div_lt_iff_lt_mul (by norm_num)]
          calc n < 256 ^ (f + 1) := hf
            _ = 256 ^ f * 256 := by ring
        have hpos : 0 < n / 256 := Nat.div_pos (by omega) (by norm_num)
        have hne := toVecFuel_ne_nil f (n / 256) hpos hf2
        have hh := ih (n / 256) hf2
        cases hrec : toVecFuel f (n / 256) with
        | nil => exact absurd hrec hne
        | cons a rest => rw [hrec] at hh; simpa using hh

theorem toVec_head (n : Nat) : (toVec n).head? ≠ some 0 :=
  toVecFuel_head n n (lt_pow_256 n)

theorem toVecFuel_bytes_lt :
    ∀ f n, ∀ b ∈ toVecFuel f n, b < 256 := by
  intro f
  induction f with
  | zero => intro n b hb; simp [toVecFuel] at hb
  | succ f ih =>
    intro n b hb
    by_cases hn : n = 0
    · subst hn; simp [toVecFuel_zero] at hb
    · simp only [toVecFuel, if_neg hn, List.mem_append, List.mem_singleton] at hb
      rcases hb with hb | hb
      · exact ih (n / 256) b hb
      · subst hb; exact Nat.mod_lt n (by norm_num)

theorem toVec_bytes_lt (n : Nat) : ∀ b ∈ toVec n, b < 256 :=
  toVecFuel_bytes_lt n n

theorem toVecFuel_length_le : ∀ f n, (toVecFuel f n).length ≤ f := by
  intro f
  induction f with
  | zero => intro n; simp [toVecFuel]
  | succ f ih =>
    intro n
    by_cases hn : n = 0
    · subst hn; simp [toVecFuel_zero]
    · simp only [toVecFuel, if_neg hn, List.length_append, List.length_singleton]
      have := ih (n / 256)
      omega

theorem toVec_length_le (k n : Nat) (h : n < 256 ^ k) : (toVec n).length ≤ k := by
  rw [toVec_eq_fuel k n h]
  exact toVecFuel_length_le k n

theorem toVecFuel_lower :
    ∀ f n, 0 < n → n < 256 ^ f → 256 ^ ((toVecFuel f n).length - 1) ≤ n := by
  intro f
  induction f with
  | zero => intro n hn hf; simp at hf; omega
  | succ f ih =>
    intro n hn hf
    simp only [toVecFuel, Nat.pos_iff_ne_zero.mp hn, if_false]
    by_cases hsmall : n < 256
    · have h0 : n / 256 = 0 := Nat.div_eq_of_lt hsmall
      rw [h0, toVecFuel_zero]
      simp
      omega
    · have hf2 : n / 256 < 256 ^ f := by
        rw [Nat.div_lt_iff_lt_mul (by norm_num)]
        calc n < 256 ^ (f + 1) := hf
          _ = 256 ^ f * 256 := by ring
      have hpos : 0 < n / 256 := Nat.div_pos (by omega) (by norm_num)
      have hlow := ih (n / 256) hpos hf2
      have hne := toVecFuel_ne_nil f (n / 256) hpos hf2
      have hlen : 1 ≤ (toVecFuel f (n / 256)).length := by
        cases hrec : toVecFuel f (n / 256) with
        | nil => exact absurd hrec hne
        | cons a rest => simp
      rw [List.length_append]
      have hstep : (toVecFuel f (n / 256)).length + 1 - 1 =
          ((toVecFuel f (n / 256)).length - 1) + 1 := by omega
      simp only [List.length_singleton, hstep, pow_succ]
      calc 256 ^ ((toVecFuel f (n / 256)).length - 1) * 256 ≤ n / 256 * 256 :=
            Nat.mul_le_mul_right 256 hlow
        _ ≤ n := Nat.div_mul_le_self n 256

theorem beVal_bound_aux :
    ∀ (l : List Nat) (acc : Nat), (∀ b ∈ l, b < 256) →
      List.foldl (fun a b => a * 256 + b) acc l < (acc + 1) * 256 ^ l.length := by
  intro l
  induction l with
  | nil => intro acc _; simp
  | cons b rest ih =>
    intro acc hb
    have hb0 : b < 256 := hb b (by simp)
    have hrest : ∀ c ∈ rest, c < 256 := fun c hc => hb c (by simp [hc])
    have step := ih (acc * 256 + b) hrest
    calc List.foldl (fun a b => a * 256 + b) acc (b :: rest) =
          List.foldl (fun a b => a * 256 + b) (acc * 256 + b) rest := by simp
      _ < (acc * 256 + b + 1) * 256 ^ rest.length := step
      _ ≤ (acc + 1) * 256 ^ (b :: rest).length := by
          simp only [List.length_cons, pow_succ]
          calc (acc * 256 + b + 1) * 256 ^ rest.length ≤
                ((acc + 1) * 256) * 256 ^ rest.length := by
                  apply Nat.mul_le_mul_right
                  omega
            _ = (acc + 1) * (256 ^ rest.length * 256) := by ring

theorem beVal_bound (l : List Nat) (h : ∀ b ∈ l, b < 256) :
    beVal l < 256 ^ l.length := by
  have := beVal_bound_aux l 0 h
  simpa [beVal] using this

theorem toVec_shortest (n : Nat) (l : List Nat) (hb : ∀ b ∈ l, b < 256)
    (hv : beVal l = n) : (toVec n).length ≤ l.length := by
  by_cases hn : n = 0
  · subst hn; simp [toVec, toVecFuel]
  · have hlow := toVecFuel_lower n n (Nat.pos_of_ne_zero hn) (lt_pow_256 n)
    have hup : n < 256 ^ l.length := hv ▸ beVal_bound l hb
    have hlt : 256 ^ ((toVec n).length - 1) < 256 ^ l.length :=
      Nat.lt_of_le_of_lt hlow hup
    have := (Nat.pow_lt_pow_iff_right (by norm_num : 1 < 256)).mp hlt
    have hne : toVec n ≠ [] := toVec_ne_nil n (Nat.pos_of_ne_zero hn)
    have : (toVec n).length - 1 < l.length := this
    cases hv2 : toVec n with
    | nil => exact absurd hv2 hne
    | cons a rest => rw [hv2] at this; simp at this ⊢; omega

/-! ### Length facts about base64url and the SHA digests -/

theorem b64Chars_length : ∀ bs : List Nat, (b64Chars bs).length = (4 * bs.length + 2) / 3
  | [] => by simp [b64Chars]
  | [b1] => by simp [b64Chars]
  | [b1, b2] => by simp [b64Chars]
  | b1 :: b2 :: b3 :: rest => by
    have ih := b64Chars_length rest
    simp only [b64Chars, List.length_cons, ih]
    omega

theorem encodeBase64Url_length (bs : List Nat) :
    (encodeBase64Url bs).length = (4 * bs.length + 2) / 3 := by
  simp only [encodeBase64Url, String.length]
  exact b64Chars_length bs

theorem b64DecodedLen_encode (bs : List Nat) :
    b64DecodedLen (encodeBase64Url bs) = bs.length := by
  simp only [b64DecodedLen, encodeBase64Url_length]
  by_cases h2 : (4 * bs.length + 2) / 3 % 4 = 2
  · rw [if_pos h2]; omega
  · by_cases h3 : (4 * bs.length + 2) / 3 % 4 = 3
    · rw [if_neg h2, if_pos h3]; omega
    · rw [if_neg h2, if_neg h3]; omega

theorem sha256_length (msg : List Nat) : (sha256 msg).length = 32 := by
  simp only [sha256]
  rcases List.foldl sha256Compress sha256H0 (toBlocks16 (toWords (padMsg msg))) with
    ⟨a, b, c, d, e, f, g, h⟩
  simp [wordBytes]

theorem sha1_length (msg : List Nat) : (sha1 msg).length = 20 := by
  simp only [sha1]
  rcases List.foldl sha1Compress (1732584193, 4023233417, 2562383102, 271733878, 3285377520)
      (toBlocks16 (toWords (padMsg msg))) with ⟨a, b, c, d, e⟩
  simp [wordBytes]

theorem padBE_length (w n : Nat) : (padBE w n).length = w := by
  simp [padBE]

theorem pointUncompressed_length (w x y : Nat) :
    (pointUncompressed w x y).length = 1 + 2 * w := by
  simp [pointUncompressed, padBE_length]
  omega

/-! ### The claims -/

/-- C1: for every RSA public key, the kid field is the unpadded base64url
encoding of the SHA-256 digest of the canonical bytes of n immediately
followed by the canonical bytes of e, with no separators and no length
prefixes. -/
theorem claim_C1 (n e : Nat) :
    (RsaOutput.tryFromPub ⟨n, e⟩).map (fun o => o.kid) =
      Except.ok (encodeBase64Url (sha256 (toVec n ++ toVec e))) := rfl

/-- C2: every RSA private key yields an output with a d field, and a kid
that is the base64url encoding of the SHA-256 digest of the canonical bytes
of n, then e, then d; the hashed byte string strictly extends the public
one whenever d is positive, and at the concrete scenario key (n = 3233,
e = 17, d = 1193) the private kid differs from the public kid. -/
theorem claim_C2 :
    (∀ n e d : Nat,
      (RsaOutput.tryFromPriv ⟨n, e, d⟩).map (fun o => (o.d, o.kid)) =
        Except.ok (some (encodeBase64Url (toVec d)),
          encodeBase64Url (sha256 ((toVec n ++ toVec e) ++ toVec d)))) ∧
    (∀ n e d : Nat, 0 < d → (toVec n ++ toVec e) ++ toVec d ≠ toVec n ++ toVec e) ∧
    encodeBase64Url (sha256 ((toVec 3233 ++ toVec 17) ++ toVec 1193)) ≠
      encodeBase64Url (sha256 (toVec 3233 ++ toVec 17)) := by
  refine ⟨fun n e d => rfl, ?_, by decide⟩
  intro n e d hd heq
  have hlen := congrArg List.length heq
  simp only [List.length_append] at hlen
  have : (toVec d).length = 0 := by omega
  exact toVec_ne_nil d hd (List.length_eq_zero.mp this)

theorem claim_C2_witness :
    0 < 1193 ∧ (toVec 3233 ++ toVec 17) ++ toVec 1193 ≠ toVec 3233 ++ toVec 17 :=
  ⟨by decide, claim_C2.2.1 3233 17 1193 (by decide)⟩

/-- C3: for every EC P-256 public key, the kid under the SHA-256 hash domain
is the base64url encoding of the SHA-256 digest of the uncompressed point
encoding (form byte 0x04 followed by the 32-byte fixed-width x and y), and
that encoding is not the concatenation of the minimal canonical bytes of x
and y. -/
theorem claim_C3 (x y : Nat) (hx : x < p256) (hy : y < p256) :
    (EcOutput.tryFrom ⟨⟨some nidP256, 32⟩, x, y⟩).map (fun o => o.kid) =
      Except.ok (encodeBase64Url (sha256 (pointUncompressed 32 x y))) ∧
    pointUncompressed 32 x y ≠ toVec x ++ toVec y := by
  constructor
  · rfl
  · intro heq
    have hlen := congrArg List.length heq
    rw [pointUncompressed_length, List.length_append] at hlen
    have hxb : x < 256 ^ 32 := lt_trans hx (by norm_num [p256])
    have hyb : y < 256 ^ 32 := lt_trans hy (by norm_num [p256])
    have hx32 := toVec_length_le 32 x hxb
    have hy32 := toVec_length_le 32 y hyb
    omega

theorem claim_C3_witness :
    (EcOutput.tryFrom ⟨⟨some nidP256, 32⟩, 1, 2⟩).map (fun o => o.kid) =
      Except.ok (encodeBase64Url (sha256 (pointUncompressed 32 1 2))) ∧
    pointUncompressed 32 1 2 ≠ toVec 1 ++ toVec 2 :=
  claim_C3 1 2 (by norm_num [p256]) (by norm_num [p256])

/-- C4 counterexample: the claim says the value 0 encodes as a single zero
byte; BN_bn2bin as modelled by toVec yields the empty byte sequence for 0,
not the one-byte sequence 0x00. -/
theorem claim_C4_cex : toVec 0 = [] ∧ toVec 0 ≠ [0] := by decide

/-- C4 (amended): the canonical encoding of a non-negative integer is the
shortest big-endian byte sequence representing it, with no leading zero
byte, except that the value 0 encodes as the empty byte sequence. -/
theorem claim_C4 :
    (∀ n : Nat,
      beVal (toVec n) = n ∧
      (∀ b ∈ toVec n, b < 256) ∧
      (toVec n).head? ≠ some 0 ∧
      (∀ l : List Nat, (∀ b ∈ l, b < 256) → beVal l = n →
        (toVec n).length ≤ l.length)) ∧
    toVec 0 = [] := by
  refine ⟨fun n => ⟨beVal_toVec n, toVec_bytes_lt n, toVec_head n,
    fun l hb hv => toVec_shortest n l hb hv⟩, rfl⟩

theorem claim_C4_witness :
    beVal (toVec 5) = 5 ∧ (5 : Nat) < 256 ∧ (toVec 5).length ≤ ([0, 5] : List Nat).length :=
  ⟨(claim_C4.1 5).1, (claim_C4.1 5).2.1 5 (by decide),
   (claim_C4.1 5).2.2.2 [0, 5] (by decide) (by decide)⟩

/-- C5: both EC thumbprint hash domains are selectable: under the SHA-1
domain (modelled from the spec, its front end not being under src) every EC
kid decodes to exactly 20 bytes, under the SHA-256 domain to exactly 32
bytes, and the EC conversion of src/main.rs produces exactly the SHA-256
domain kid. -/
theorem claim_C5 :
    (∀ key : EcKeyPub,
      b64DecodedLen (ecKid HashDomain.sha1Domain key) = 20 ∧
      b64DecodedLen (ecKid HashDomain.sha256Domain key) = 32) ∧
    (∀ nid w x y : Nat,
      (EcOutput.tryFrom ⟨⟨some nid, w⟩, x, y⟩).map (fun o => o.kid) =
        Except.ok (ecKid HashDomain.sha256Domain ⟨⟨some nid, w⟩, x, y⟩)) := by
  constructor
  · intro key
    constructor
    · rw [ecKid, ecThumbprintDigest, b64DecodedLen_encode, sha1_length]
    · rw [ecKid, ecThumbprintDigest, b64DecodedLen_encode, sha256_length]
  · intro nid w x y
    rfl

/-- C6 counterexample: the claim orders the EC fields as x, y, kty, alg,
crv, kid and the RSA fields as n, e, kty, alg, kid; the serde declaration
order actually emitted puts kid before crv, kty and alg. -/
theorem claim_C6_cex :
    (EcOutput.tryFrom ⟨⟨some nidP256, 32⟩, 1, 2⟩).map (fun o => o.fields.map Prod.fst) ≠
      Except.ok ["x", "y", "kty", "alg", "crv", "kid"] ∧
    (RsaOutput.tryFromPub ⟨3233, 17⟩).map (fun o => o.fields.map Prod.fst) ≠
      Except.ok ["n", "e", "kty", "alg", "kid"] := by
  constructor
  · intro h
    simp [EcOutput.tryFrom, EcOutput.fields, Except.map, nidP256] at h
  · intro h
    simp [RsaOutput.tryFromPub, RsaOutput.fields, Except.map] at h

/-- C6 (amended): the serialized JWK has exactly the field names, in the
order, that the serde declaration order dictates: EC public emits x, y,
kid, crv, kty, alg and RSA public emits n, e, kid, kty, alg, names
verbatim. -/
theorem claim_C6 :
    (∀ nid w x y : Nat,
      (EcOutput.tryFrom ⟨⟨some nid, w⟩, x, y⟩).map (fun o => o.fields.map Prod.fst) =
        Except.ok ["x", "y", "kid", "crv", "kty", "alg"]) ∧
    (∀ n e : Nat,
      (RsaOutput.tryFromPub ⟨n, e⟩).map (fun o => o.fields.map Prod.fst) =
        Except.ok ["n", "e", "kid", "kty", "alg"]) :=
  ⟨fun _ _ _ _ => rfl, fun _ _ => rfl⟩

/-- C7: an EC public key on any named curve converts without failure, and
its crv field is the literal P-256 exactly for the P-256 identifier and the
literal Unknown for every other identifier. -/
theorem claim_C7 (nid w x y : Nat) :
    (EcOutput.tryFrom ⟨⟨some nid, w⟩, x, y⟩).isOk = true ∧
    (EcOutput.tryFrom ⟨⟨some nid, w⟩, x, y⟩).map (fun o => o.crv) =
      Except.ok (if nid = nidP256 then "P-256" else "Unknown") := by
  refine ⟨rfl, ?_⟩
  by_cases h : nid = nidP256
  · subst h
    simp [EcOutput.tryFrom, Except.map]
  · simp [EcOutput.tryFrom, Except.map, h]

/-- C8 counterexample: an EC private key does not fail with an
UnsupportedKeyType error report: the private-key arm of main reaches the
unimplemented macro and panics. -/
theorem claim_C8_cex :
    runPrivate (PKeyPriv.ec 408) ≠ RunOutcome.reported "UnsupportedKeyType" ∧
    runPrivate (PKeyPriv.ec 408) =
      RunOutcome.panicked "not implemented: The key id Id(408) is not implemented" := by
  constructor <;> decide

/-- C8 (amended): for every EC private key given as input, the process
panics with an unimplemented-key message, prints no JSON, and exits with
nonzero status. -/
theorem claim_C8 (idNum : Nat) :
    (runPrivate (PKeyPriv.ec idNum)).printsJson = false ∧
    (runPrivate (PKeyPriv.ec idNum)).exitCode ≠ 0 ∧
    runPrivate (PKeyPriv.ec idNum) =
      RunOutcome.panicked
        ("not implemented: The key id Id(" ++ toString idNum ++ ") is not implemented") :=
  ⟨rfl, by simp [runPrivate, RunOutcome.exitCode], rfl⟩

/-- C9: the d field is present exactly for private RSA keys: every EC
output carries none, every RSA public output carries none, and every RSA
private output carries the base64url encoding of d. -/
theorem claim_C9 :
    (∀ (key : EcKeyPub) (o : EcOutput), EcOutput.tryFrom key = Except.ok o → o.d = none) ∧
    (∀ n e : Nat, (RsaOutput.tryFromPub ⟨n, e⟩).map (fun o => o.d) = Except.ok none) ∧
    (∀ n e d : Nat, (RsaOutput.tryFromPriv ⟨n, e, d⟩).map (fun o => o.d) =
      Except.ok (some (encodeBase64Url (toVec d)))) := by
  refine ⟨?_, fun n e => rfl, fun n e d => rfl⟩
  intro key o h
  rcases hg : key.group.curveName with _ | nid <;>
    simp [EcOutput.tryFrom, hg] at h
  rw [← h]

theorem claim_C9_witness :
    ({ d := none, x := encodeBase64Url (toVec 1), y := encodeBase64Url (toVec 2),
       kid := encodeBase64Url (sha256 (pointUncompressed 32 1 2)), crv := "P-256",
       kty := "EC", alg := "ES256" } : EcOutput).d = none :=
  claim_C9.1 ⟨⟨some nidP256, 32⟩, 1, 2⟩ _ rfl

/-- C10: both RSA conversions are infallible: for every modulus, public
exponent and private exponent they return an ok value, so the error branch
of the Result is unreachable. -/
theorem claim_C10 (n e d : Nat) :
    (RsaOutput.tryFromPub ⟨n, e⟩).isOk = true ∧
    (RsaOutput.tryFromPriv ⟨n, e, d⟩).isOk = true :=
  ⟨rfl, rfl⟩

end EcToJwk
